import Mathlib

/-!
A verification development for the betting-research value-detection and
lay-sizing engine.  The TypeScript source is embedded shallowly over `ℚ`:
`number` becomes `ℚ`, `null` becomes `Option`, JS `Math.round(x*100)/100`
becomes `round2`, and `Math.pow` (a real-valued primitive applied to runtime
exponents) is threaded through as an explicit function parameter `pow`.
-/

namespace BettingResearch

/-- Embedding of `round2` from `src/lib/lay-engine.ts`:
`Math.round(n * 100) / 100`, where `Math.round x = ⌊x + 1/2⌋`. -/
def round2 (q : ℚ) : ℚ := (⌊q * 100 + 1/2⌋ : ℤ) / 100

/-- Embedding of `round4` from `src/lib/lay-engine.ts`:
`Math.round(n * 10000) / 10000`. -/
def round4 (q : ℚ) : ℚ := (⌊q * 10000 + 1/2⌋ : ℤ) / 10000

/-- Rounding to whole cents moves a value by at most half a cent. -/
theorem round2_sub_abs (q : ℚ) : |round2 q - q| ≤ 1/200 := by
  have h1 : (⌊q * 100 + 1/2⌋ : ℚ) ≤ q * 100 + 1/2 := Int.floor_le _
  have h2 : q * 100 + 1/2 < (⌊q * 100 + 1/2⌋ : ℚ) + 1 := Int.lt_floor_add_one _
  rw [round2, abs_le]
  constructor <;> [linarith; linarith]

/-- `round4` of a nonnegative rational is nonnegative. -/
theorem round4_nonneg (q : ℚ) (hq : 0 ≤ q) : 0 ≤ round4 q := by
  have h : (0 : ℚ) ≤ (⌊q * 10000 + 1/2⌋ : ℤ) := by
    have : (0 : ℚ) ≤ q * 10000 + 1/2 := by linarith
    exact_mod_cast Int.floor_nonneg.mpr this
  rw [round4]
  positivity

-- ============================================================
-- Probability model (src/lib/lay-engine.ts)
-- ============================================================

/-- Embedding of `marketImpliedProb` (`src/lib/lay-engine.ts` lines 106-109):
`if (decimalOdds <= 0) return 0; return 1 / decimalOdds;`. -/
def marketImpliedProb (decimalOdds : ℚ) : ℚ :=
  if decimalOdds ≤ 0 then 0 else 1 / decimalOdds

/-- Embedding of `modelProbability` (`src/lib/lay-engine.ts` lines 39-46).
`Math.pow` is a real-valued primitive applied to a runtime exponent, so it is
threaded through as an explicit parameter `pow`; the actual `Math.pow`
satisfies `pow x 1 = x`, which is the only fact the claims need.
`if (decimalOdds <= 1) return 1; return 1 / (1 + alpha * Math.pow(x, beta))`. -/
def modelProbability (pow : ℚ → ℚ → ℚ) (decimalOdds alpha beta : ℚ) : ℚ :=
  if decimalOdds ≤ 1 then 1 else 1 / (1 + alpha * pow (decimalOdds - 1) beta)

-- ============================================================
-- Core lay betting math (src/lib/lay-engine.ts)
-- ============================================================

/-- `layLiability` (`src/lib/lay-engine.ts` line 67): `L = S * (O - 1)`. -/
def layLiability (stake layOdds : ℚ) : ℚ := stake * (layOdds - 1)

/-- `profitIfLose` (`src/lib/lay-engine.ts` line 75): `S * (1 - c)`. -/
def profitIfLose (stake commission : ℚ) : ℚ := stake * (1 - commission)

/-- `lossIfWin` (`src/lib/lay-engine.ts` line 83): `layLiability(stake, layOdds)`. -/
def lossIfWin (stake layOdds : ℚ) : ℚ := layLiability stake layOdds

/-- Input record of `kellyLay` (`FullKellyParams` in `src/lib/lay-engine.ts`). -/
structure FullKellyParams where
  bankroll : ℚ
  layOdds : ℚ
  pWin : ℚ
  commission : ℚ
  kellyMultiplier : ℚ
  maxLiabilityPct : ℚ
  minStake : ℚ
  deriving DecidableEq, Repr

/-- Output record of `kellyLay` (`FullKellyResult` in `src/lib/lay-engine.ts`). -/
structure FullKellyResult where
  kellyFraction : ℚ
  returnPerLiability : ℚ
  layStake : ℚ
  liability : ℚ
  profitIfLoses : ℚ
  lossIfWins : ℚ
  ev : ℚ
  evPctBankroll : ℚ
  evPerLiability : ℚ
  cappedByMaxLiability : Bool
  belowMinStake : Bool
  deriving DecidableEq, Repr

/-- `oddsMinusOne = layOdds - 1` (`src/lib/lay-engine.ts` line 193). -/
def oddsMinusOne (p : FullKellyParams) : ℚ := p.layOdds - 1

/-- `r = oddsMinusOne > 0 ? (1 - commission) / oddsMinusOne : 0`
(`src/lib/lay-engine.ts` line 196). -/
def returnPerLiability (p : FullKellyParams) : ℚ :=
  if 0 < oddsMinusOne p then (1 - p.commission) / oddsMinusOne p else 0

/-- `kellyFraction = r > 0 ? pLose - (pWin * oddsMinusOne) / (1 - commission) : 0`
(`src/lib/lay-engine.ts` line 199). -/
def kellyFullFraction (p : FullKellyParams) : ℚ :=
  if 0 < returnPerLiability p then
    (1 - p.pWin) - p.pWin * oddsMinusOne p / (1 - p.commission)
  else 0

/-- `adjustedF = Math.min(kellyFraction * kellyMultiplier, 1)`
(`src/lib/lay-engine.ts` line 220). -/
def adjustedF (p : FullKellyParams) : ℚ :=
  min (kellyFullFraction p * p.kellyMultiplier) 1

/-- `liab = adjustedF * bankroll` before the cap (`src/lib/lay-engine.ts` line 223). -/
def uncappedLiability (p : FullKellyParams) : ℚ := adjustedF p * p.bankroll

/-- `stake = liab / oddsMinusOne` before the cap (`src/lib/lay-engine.ts` line 224). -/
def uncappedStake (p : FullKellyParams) : ℚ := uncappedLiability p / oddsMinusOne p

/-- `maxLiab = bankroll * (maxLiabilityPct / 100)` (`src/lib/lay-engine.ts` line 229). -/
def maxLiability (p : FullKellyParams) : ℚ := p.bankroll * (p.maxLiabilityPct / 100)

/-- The all-zero no-bet record returned by `kellyLay` when there is no positive
edge (`src/lib/lay-engine.ts` lines 202-216); `kellyFraction` is reported as
`Math.max(kellyFraction, 0)` and is not rounded on that path. -/
def noBetResult (p : FullKellyParams) : FullKellyResult :=
  { kellyFraction := max (kellyFullFraction p) 0
    returnPerLiability := returnPerLiability p
    layStake := 0
    liability := 0
    profitIfLoses := 0
    lossIfWins := 0
    ev := 0
    evPctBankroll := 0
    evPerLiability := 0
    cappedByMaxLiability := false
    belowMinStake := false }

/-- The liability after the `if (liab > maxLiab)` cap
(`src/lib/lay-engine.ts` lines 230-234). -/
def cappedLiability (p : FullKellyParams) : ℚ :=
  if maxLiability p < uncappedLiability p then maxLiability p else uncappedLiability p

/-- The stake after the cap: the code recomputes `stake = liab / oddsMinusOne`
inside the cap branch, so both branches divide the (possibly capped) liability
by `oddsMinusOne` (`src/lib/lay-engine.ts` lines 224 and 232). -/
def betStake (p : FullKellyParams) : ℚ := cappedLiability p / oddsMinusOne p

/-- `ev = pLose * profit - pWin * loss` with
`profit = profitIfLose(stake, commission)` and `loss = lossIfWin(stake, layOdds)`
(`src/lib/lay-engine.ts` lines 243-247). -/
def betEV (p : FullKellyParams) : ℚ :=
  (1 - p.pWin) * profitIfLose (betStake p) p.commission -
    p.pWin * lossIfWin (betStake p) p.layOdds

/-- The record returned by `kellyLay` on the positive-edge path
(`src/lib/lay-engine.ts` lines 251-263). -/
def betResult (p : FullKellyParams) : FullKellyResult :=
  { kellyFraction := round4 (kellyFullFraction p)
    returnPerLiability := round4 (returnPerLiability p)
    layStake := round2 (betStake p)
    liability := round2 (cappedLiability p)
    profitIfLoses := round2 (profitIfLose (betStake p) p.commission)
    lossIfWins := round2 (lossIfWin (betStake p) p.layOdds)
    ev := round2 (betEV p)
    evPctBankroll := round4 (if 0 < p.bankroll then betEV p / p.bankroll * 100 else 0)
    evPerLiability :=
      round4 (if 0 < cappedLiability p then betEV p / cappedLiability p else 0)
    cappedByMaxLiability := decide (maxLiability p < uncappedLiability p)
    belowMinStake := decide (betStake p < p.minStake ∧ 0 < betStake p) }

/-- Embedding of `kellyLay` (`src/lib/lay-engine.ts` lines 181-264):
`if (kellyFraction <= 0 || oddsMinusOne <= 0 || bankroll <= 0)` return the
no-bet record, else the sized record. -/
def kellyLay (p : FullKellyParams) : FullKellyResult :=
  if kellyFullFraction p ≤ 0 ∨ oddsMinusOne p ≤ 0 ∨ p.bankroll ≤ 0 then
    noBetResult p
  else betResult p

/-- The regression-pin input of spec section 8: `bankroll=1000, lay_odds=3.5,
p_win=0.2, commission=0.05, kelly_multiplier=1.0, max_liability_pct=100,
min_stake=0`. -/
def kellyExampleParams : FullKellyParams :=
  { bankroll := 1000, layOdds := 7/2, pWin := 1/5, commission := 1/20
    kellyMultiplier := 1, maxLiabilityPct := 100, minStake := 0 }

/-- When the lay odds exceed one and the commission is below one, the internal
return per unit liability is positive. -/
theorem returnPerLiability_eq (p : FullKellyParams) (h1 : 1 < p.layOdds)
    (h5 : p.commission < 1) :
    returnPerLiability p = (1 - p.commission) / (p.layOdds - 1) ∧
      0 < returnPerLiability p := by
  have homo : 0 < oddsMinusOne p := by
    simp only [oddsMinusOne]; linarith
  have hc : 0 < 1 - p.commission := by linarith
  have heq : returnPerLiability p = (1 - p.commission) / (p.layOdds - 1) := by
    rw [returnPerLiability, if_pos homo, oddsMinusOne]
  refine ⟨heq, ?_⟩
  rw [heq]
  exact div_pos hc (by linarith)

/-- Claim C1: on the valid input domain (`lay_odds > 1`, `0 ≤ p_win ≤ 1`,
`0 ≤ commission < 1`, `bankroll > 0`) the full-Kelly fraction computed by
`kellyLay` equals `(1 - p_win) - p_win * (lay_odds - 1) / (1 - commission)`;
when it is positive, the pre-cap liability is
`min(f* * kelly_multiplier, 1) * bankroll` and the pre-cap stake is that
liability divided by `lay_odds - 1`; and at the spec's regression input the
returned record carries exactly the rounded values of these formulas
(`f* = 0.8 - 0.2*2.5/0.95 = 26/95`, reported as `0.2737`; liability `273.68`;
stake `109.47`). -/
theorem kellyLay_fullKelly_formula (p : FullKellyParams)
    (h1 : 1 < p.layOdds) (h2 : 0 ≤ p.pWin) (h3 : p.pWin ≤ 1)
    (h4 : 0 ≤ p.commission) (h5 : p.commission < 1) (h6 : 0 < p.bankroll) :
    kellyFullFraction p = (1 - p.pWin) - p.pWin * (p.layOdds - 1) / (1 - p.commission)
    ∧ (0 < kellyFullFraction p →
        uncappedLiability p = min (kellyFullFraction p * p.kellyMultiplier) 1 * p.bankroll
        ∧ uncappedStake p = uncappedLiability p / (p.layOdds - 1))
    ∧ kellyFullFraction kellyExampleParams = 4/5 - (1/5) * (5/2) / (19/20)
    ∧ kellyLay kellyExampleParams =
      { kellyFraction := 2737/10000
        returnPerLiability := 19/50
        layStake := 10947/100
        liability := 6842/25
        profitIfLoses := 104
        lossIfWins := 6842/25
        ev := 1423/50
        evPctBankroll := 28463/10000
        evPerLiability := 13/125
        cappedByMaxLiability := false
        belowMinStake := false } := by
  obtain ⟨heq, hrpos⟩ := returnPerLiability_eq p h1 h5
  refine ⟨?_, ?_, ?_, ?_⟩
  · rw [kellyFullFraction, if_pos hrpos, oddsMinusOne]
  · intro _
    exact ⟨rfl, rfl⟩
  · norm_num [kellyFullFraction, returnPerLiability, oddsMinusOne, kellyExampleParams]
  · norm_num [kellyLay, betResult, betEV, betStake, cappedLiability, kellyFullFraction,
      returnPerLiability, oddsMinusOne, maxLiability, uncappedLiability, adjustedF,
      profitIfLose, lossIfWin, layLiability, round2, round4, kellyExampleParams]

/-- Witness for C1 at the spec regression input. -/
theorem kellyLay_fullKelly_formula_witness :
    kellyFullFraction kellyExampleParams =
      (1 - kellyExampleParams.pWin) -
        kellyExampleParams.pWin * (kellyExampleParams.layOdds - 1) /
          (1 - kellyExampleParams.commission) :=
  (kellyLay_fullKelly_formula kellyExampleParams (by norm_num [kellyExampleParams])
    (by norm_num [kellyExampleParams]) (by norm_num [kellyExampleParams])
    (by norm_num [kellyExampleParams]) (by norm_num [kellyExampleParams])
    (by norm_num [kellyExampleParams])).1

/-- On the positive-edge path `kellyLay` returns the sized record. -/
theorem kellyLay_bet_eq (p : FullKellyParams)
    (hbet : ¬(kellyFullFraction p ≤ 0 ∨ oddsMinusOne p ≤ 0 ∨ p.bankroll ≤ 0)) :
    kellyLay p = betResult p := by
  rw [kellyLay, if_neg hbet]

/-- Claim C8: whenever the computed full-Kelly fraction is nonpositive (or the
odds are degenerate, `lay_odds - 1 ≤ 0`, which forces the computed fraction to
zero), `kellyLay` returns the all-zero no-bet record whose reported
`kellyFraction` is `max(f*, 0)`; and on every input whatsoever the returned
`kellyFraction` field is nonnegative. -/
theorem kellyLay_noBet_report (p : FullKellyParams)
    (h : kellyFullFraction p ≤ 0 ∨ oddsMinusOne p ≤ 0) :
    kellyLay p = noBetResult p ∧
    (kellyLay p).kellyFraction = max (kellyFullFraction p) 0 ∧
    (kellyLay p).layStake = 0 ∧ (kellyLay p).liability = 0 ∧
    (kellyLay p).profitIfLoses = 0 ∧ (kellyLay p).lossIfWins = 0 ∧
    (kellyLay p).ev = 0 ∧ (kellyLay p).cappedByMaxLiability = false ∧
    (kellyLay p).belowMinStake = false ∧
    ∀ q : FullKellyParams, 0 ≤ (kellyLay q).kellyFraction := by
  have hbr : kellyFullFraction p ≤ 0 ∨ oddsMinusOne p ≤ 0 ∨ p.bankroll ≤ 0 := by
    rcases h with h | h
    · exact Or.inl h
    · exact Or.inr (Or.inl h)
  have hmain : kellyLay p = noBetResult p := by rw [kellyLay, if_pos hbr]
  refine ⟨hmain, by rw [hmain]; rfl, by rw [hmain]; rfl, by rw [hmain]; rfl,
    by rw [hmain]; rfl, by rw [hmain]; rfl, by rw [hmain]; rfl, by rw [hmain]; rfl,
    by rw [hmain]; rfl, ?_⟩
  intro q
  rw [kellyLay]
  split_ifs with hq
  · exact le_max_right _ 0
  · show 0 ≤ round4 (kellyFullFraction q)
    push_neg at hq
    exact round4_nonneg _ (le_of_lt hq.1)

/-- Degenerate input for C8: `pWin = 1` makes the full-Kelly fraction
`0 - 1*(2-1)/(1-0) = -1`. -/
def noEdgeParams : FullKellyParams :=
  { bankroll := 1000, layOdds := 2, pWin := 1, commission := 0
    kellyMultiplier := 1, maxLiabilityPct := 100, minStake := 0 }

/-- Witness for C8 at a concrete negative-edge input. -/
theorem kellyLay_noBet_report_witness :
    kellyLay noEdgeParams = noBetResult noEdgeParams :=
  (kellyLay_noBet_report noEdgeParams (Or.inl (by
    norm_num [kellyFullFraction, returnPerLiability, oddsMinusOne, noEdgeParams]))).1

/-- Claim C2 (amended): when the sizing branch is reached and the uncapped
liability exceeds the ceiling `bankroll * max_liability_pct / 100`, the result
is flagged `cappedByMaxLiability = true`, the returned liability is the
ceiling rounded to 2 decimal places (hence equals the ceiling exactly exactly
when the ceiling is a whole number of cents), and the returned stake is the
ceiling divided by `lay_odds - 1`, rounded to 2 decimal places. -/
theorem kellyLay_maxLiability_cap (p : FullKellyParams)
    (hbet : ¬(kellyFullFraction p ≤ 0 ∨ oddsMinusOne p ≤ 0 ∨ p.bankroll ≤ 0))
    (hcap : maxLiability p < uncappedLiability p) :
    (kellyLay p).cappedByMaxLiability = true ∧
    (kellyLay p).liability = round2 (maxLiability p) ∧
    (kellyLay p).layStake = round2 (maxLiability p / oddsMinusOne p) := by
  rw [kellyLay_bet_eq p hbet]
  refine ⟨?_, ?_, ?_⟩
  · show decide (maxLiability p < uncappedLiability p) = true
    exact decide_eq_true hcap
  · show round2 (cappedLiability p) = round2 (maxLiability p)
    rw [cappedLiability, if_pos hcap]
  · show round2 (betStake p) = round2 (maxLiability p / oddsMinusOne p)
    rw [betStake, cappedLiability, if_pos hcap]

/-- A capping scenario with a clean ceiling (`bankroll=1000`,
`maxLiabilityPct=5`, uncapped liability `800 > 50`). -/
def cappedCleanParams : FullKellyParams :=
  { bankroll := 1000, layOdds := 2, pWin := 1/10, commission := 0
    kellyMultiplier := 1, maxLiabilityPct := 5, minStake := 0 }

/-- Witness for C2 (amended) at a concrete capped input. -/
theorem kellyLay_maxLiability_cap_witness :
    (kellyLay cappedCleanParams).cappedByMaxLiability = true ∧
    (kellyLay cappedCleanParams).liability = round2 (maxLiability cappedCleanParams) ∧
    (kellyLay cappedCleanParams).layStake =
      round2 (maxLiability cappedCleanParams / oddsMinusOne cappedCleanParams) :=
  kellyLay_maxLiability_cap cappedCleanParams
    (by norm_num [kellyFullFraction, returnPerLiability, oddsMinusOne, cappedCleanParams])
    (by norm_num [maxLiability, uncappedLiability, adjustedF, kellyFullFraction,
      returnPerLiability, oddsMinusOne, cappedCleanParams])

/-- A capping scenario whose ceiling `10 * (0.03/100) = 0.003` is not a whole
number of cents, so the returned (2-decimal-rounded) liability cannot equal
it. -/
def cappedRoundingParams : FullKellyParams :=
  { bankroll := 10, layOdds := 2, pWin := 1/10, commission := 0
    kellyMultiplier := 1, maxLiabilityPct := 3/100, minStake := 0 }

/-- Counterexample to C2 as stated: at `cappedRoundingParams` the uncapped
liability (8) exceeds the ceiling (0.003) and the cap flag is set, but the
returned liability is `round2(0.003) = 0`, not the ceiling exactly. -/
theorem kellyLay_cap_not_exact :
    maxLiability cappedRoundingParams < uncappedLiability cappedRoundingParams ∧
    (kellyLay cappedRoundingParams).cappedByMaxLiability = true ∧
    cappedRoundingParams.bankroll * (cappedRoundingParams.maxLiabilityPct / 100) = 3/1000 ∧
    (kellyLay cappedRoundingParams).liability = 0 ∧
    (kellyLay cappedRoundingParams).liability ≠
      cappedRoundingParams.bankroll * (cappedRoundingParams.maxLiabilityPct / 100) := by
  norm_num [kellyLay, betResult, betEV, betStake, cappedLiability, kellyFullFraction,
    returnPerLiability, oddsMinusOne, maxLiability, uncappedLiability, adjustedF,
    profitIfLose, lossIfWin, layLiability, round2, round4, cappedRoundingParams]

/-- If each of a recomputation's two rounded inputs is within half a cent of
the exact value and the reported result is within half a cent of the exact
expected value, the recomputation is within one cent of the report. -/
theorem roundtrip_bound (pw c S L S2 L2 E2 : ℚ)
    (hp0 : 0 ≤ pw) (hp1 : pw ≤ 1) (hc0 : 0 ≤ c) (hc1 : c ≤ 1)
    (hdS : |S2 - S| ≤ 1/200) (hdL : |L2 - L| ≤ 1/200)
    (hdE : |E2 - ((1-pw)*(1-c)*S - pw*L)| ≤ 1/200) :
    |((1-pw)*(S2*(1-c)) - pw*L2) - E2| ≤ 1/100 := by
  rw [abs_le] at hdS hdL hdE ⊢
  have hA0 : 0 ≤ (1 - pw) * (1 - c) := mul_nonneg (by linarith) (by linarith)
  constructor <;>
    nlinarith [mul_le_mul_of_nonneg_left hdS.2 hA0, mul_le_mul_of_nonneg_left hdS.1 hA0,
      mul_le_mul_of_nonneg_left hdL.2 hp0, mul_le_mul_of_nonneg_left hdL.1 hp0,
      mul_nonneg (by linarith : (0:ℚ) ≤ 1 - pw) hc0, mul_nonneg hp0 hc0]

/-- Claim C9: for valid probabilities and commissions, recomputing the
expected value from the engine's own returned (rounded) `layStake` and
`liability` through the payoff formulas reproduces the returned `ev` to
within one cent (the documented 2-decimal-place currency rounding). -/
theorem kellyLay_ev_roundtrip (p : FullKellyParams)
    (hp0 : 0 ≤ p.pWin) (hp1 : p.pWin ≤ 1)
    (hc0 : 0 ≤ p.commission) (hc1 : p.commission < 1)
    (hbet : ¬(kellyFullFraction p ≤ 0 ∨ oddsMinusOne p ≤ 0 ∨ p.bankroll ≤ 0)) :
    |((1 - p.pWin) * profitIfLose (kellyLay p).layStake p.commission
        - p.pWin * (kellyLay p).liability) - (kellyLay p).ev| ≤ 1/100 := by
  have homo : 0 < oddsMinusOne p := by
    push_neg at hbet
    exact lt_of_not_le (not_le.mpr hbet.2.1)
  rw [kellyLay_bet_eq p hbet]
  show |((1 - p.pWin) * profitIfLose (round2 (betStake p)) p.commission
      - p.pWin * round2 (cappedLiability p)) - round2 (betEV p)| ≤ 1/100
  have hSl : betStake p * (p.layOdds - 1) = cappedLiability p := by
    rw [oddsMinusOne] at homo
    rw [betStake, oddsMinusOne]
    exact div_mul_cancel₀ _ (by linarith)
  have hE : betEV p = (1 - p.pWin) * (1 - p.commission) * betStake p
      - p.pWin * cappedLiability p := by
    rw [betEV, profitIfLose, lossIfWin, layLiability, hSl]
    ring
  have hdE := round2_sub_abs (betEV p)
  nth_rewrite 2 [hE] at hdE
  rw [profitIfLose]
  exact roundtrip_bound p.pWin p.commission (betStake p) (cappedLiability p)
    (round2 (betStake p)) (round2 (cappedLiability p)) (round2 (betEV p))
    hp0 hp1 hc0 (le_of_lt hc1) (round2_sub_abs _) (round2_sub_abs _) hdE

/-- Claim C6: for decimal odds above one the market-implied probability is
exactly `1/O`, and the calibrated model at `alpha = beta = 1` returns the same
value (`Math.pow` at exponent one is the identity, supplied as `hpow`). -/
theorem marketImpliedProb_calibration (O : ℚ) (hO : 1 < O)
    (pow : ℚ → ℚ → ℚ) (hpow : pow (O - 1) 1 = O - 1) :
    marketImpliedProb O = 1 / O ∧
    modelProbability pow O 1 1 = marketImpliedProb O := by
  have hO0 : ¬O ≤ 0 := by linarith
  have hm : marketImpliedProb O = 1 / O := by rw [marketImpliedProb, if_neg hO0]
  refine ⟨hm, ?_⟩
  rw [modelProbability, if_neg (not_le.mpr hO), hpow, hm, one_mul]
  have hsum : 1 + (O - 1) = O := by ring
  rw [hsum]

/-- Witness for C6 at `O = 2` with the identity power function. -/
theorem marketImpliedProb_calibration_witness :
    marketImpliedProb 2 = 1 / 2 ∧
    modelProbability (fun x _ => x) 2 1 1 = marketImpliedProb 2 :=
  marketImpliedProb_calibration 2 (by norm_num) (fun x _ => x) rfl

-- ============================================================
-- Compression classifier (src/lib/calculations.ts, unnamed part_012)
-- ============================================================

/-- `ValueSignalLevel` from `src/lib/types.ts`: the ordered categorical
signal emitted by the classifier. -/
inductive ValueSignalLevel where
  | none
  | conservative
  | strong
  | premium
  deriving DecidableEq, Repr

/-- The configurable classifier thresholds (`Thresholds` in `src/lib/types.ts`). -/
structure Thresholds where
  conservative : ℚ
  strong : ℚ
  premium : ℚ
  deriving DecidableEq, Repr

/-- Embedding of `priceCompression` (part_012 lines 24-27):
`if (initialOdds <= 0) return 0; return ((initialOdds - currentOdds) / initialOdds) * 100`. -/
def priceCompression (initialOdds currentOdds : ℚ) : ℚ :=
  if initialOdds ≤ 0 then 0 else (initialOdds - currentOdds) / initialOdds * 100

/-- Embedding of `valueSignal` (part_012 lines 35-43): premium first, then
strong, then conservative, each as a `>=` test; otherwise `none`. -/
def valueSignal (compression : ℚ) (t : Thresholds) : ValueSignalLevel :=
  if t.premium ≤ compression then ValueSignalLevel.premium
  else if t.strong ≤ compression then ValueSignalLevel.strong
  else if t.conservative ≤ compression then ValueSignalLevel.conservative
  else ValueSignalLevel.none

/-- The all-zero threshold configuration (every threshold is `≥ 0`). -/
def zeroThresholds : Thresholds := { conservative := 0, strong := 0, premium := 0 }

/-- Claim C3 fails on the code: with anchor = current = 2 the computed
compression is `0 ≤ 0`, yet with the (nonnegative) thresholds `(0, 0, 0)` the
classifier returns `premium`, not `none` — the `>=` tier tests fire on zero
compression when a threshold is zero, contradicting the classifier's own
documentation that only positive compression triggers a signal. -/
theorem valueSignal_zero_compression_bug :
    priceCompression 2 2 = 0 ∧
    0 ≤ zeroThresholds.conservative ∧ 0 ≤ zeroThresholds.strong ∧
    0 ≤ zeroThresholds.premium ∧
    valueSignal (priceCompression 2 2) zeroThresholds = ValueSignalLevel.premium ∧
    ValueSignalLevel.premium ≠ ValueSignalLevel.none := by
  have h : priceCompression 2 2 = 0 := by norm_num [priceCompression]
  refine ⟨h, by norm_num [zeroThresholds], by norm_num [zeroThresholds],
    by norm_num [zeroThresholds], ?_, by decide⟩
  rw [h, valueSignal]
  norm_num [zeroThresholds]

-- ============================================================
-- Decision orchestrator (src/lib/lay-engine.ts, evaluateRunner)
-- ============================================================

/-- `ModelParams` from `src/lib/lay-engine.ts`. -/
structure ModelParams where
  alpha : ℚ
  beta : ℚ
  deriving DecidableEq, Repr

/-- `LayDecisionInput` from `src/lib/lay-engine.ts` lines 270-282. -/
structure LayDecisionInput where
  eventId : String
  runnerName : String
  initialOdds : Option ℚ
  currentOdds : Option ℚ
  averageOdds : Option ℚ
  bankroll : ℚ
  commission : ℚ
  kellyMultiplier : ℚ
  maxLiabilityPct : ℚ
  minStake : ℚ
  modelParams : ModelParams
  deriving DecidableEq, Repr

/-- `LayDecision` from `src/lib/lay-engine.ts` lines 284-309. -/
structure LayDecision where
  pModel : Option ℚ
  pMarket : Option ℚ
  edge : Option ℚ
  priceShortened : Bool
  hasLayValue : Bool
  placeLay : Bool
  reasons : List String
  kelly : Option FullKellyResult
  ev : Option ℚ
  evPctBankroll : Option ℚ
  deriving DecidableEq, Repr

/-- `nullDecision` (`src/lib/lay-engine.ts` lines 442-455). -/
def nullDecision (reasons : List String) : LayDecision :=
  { pModel := Option.none
    pMarket := Option.none
    edge := Option.none
    priceShortened := false
    hasLayValue := false
    placeLay := false
    reasons := reasons
    kelly := Option.none
    ev := Option.none
    evPctBankroll := Option.none }

/-- Embedding of `evaluateRunner` (`src/lib/lay-engine.ts` lines 315-421).
The below-minimum-stake reason string interpolates the stake and minimum in
the source; the interpolated text is abstracted to a fixed string since no
claim depends on it. -/
def evaluateRunner (pow : ℚ → ℚ → ℚ) (input : LayDecisionInput) : LayDecision :=
  match input.currentOdds with
  | Option.none => nullDecision ["No current odds available"]
  | Option.some currentOdds =>
    if currentOdds ≤ 1 then nullDecision ["No current odds available"]
    else
      let oddsForModel := input.averageOdds.getD currentOdds
      let pModel :=
        modelProbability pow oddsForModel input.modelParams.alpha input.modelParams.beta
      let pMarket := marketImpliedProb currentOdds
      let edge := pMarket - pModel
      let priceShortened : Bool :=
        match input.initialOdds with
        | Option.none => false
        | Option.some initialOdds => decide (currentOdds < initialOdds)
      let hasLayValue : Bool := decide (pModel < pMarket)
      let reasons :=
        (if priceShortened then [] else ["Price not shortened"]) ++
          (if hasLayValue then [] else ["No lay value (model p >= market p)"])
      if (priceShortened && hasLayValue) = false then
        { pModel := Option.some pModel
          pMarket := Option.some pMarket
          edge := Option.some edge
          priceShortened := priceShortened
          hasLayValue := hasLayValue
          placeLay := false
          reasons := reasons
          kelly := Option.none
          ev := Option.none
          evPctBankroll := Option.none }
      else
        let kelly := kellyLay
          { bankroll := input.bankroll
            layOdds := currentOdds
            pWin := pModel
            commission := input.commission
            kellyMultiplier := input.kellyMultiplier
            maxLiabilityPct := input.maxLiabilityPct
            minStake := input.minStake }
        if kelly.kellyFraction ≤ 0 then
          { pModel := Option.some pModel
            pMarket := Option.some pMarket
            edge := Option.some edge
            priceShortened := priceShortened
            hasLayValue := hasLayValue
            placeLay := false
            reasons := reasons ++ ["Kelly fraction <= 0 (negative EV after commission)"]
            kelly := Option.some kelly
            ev := Option.some kelly.ev
            evPctBankroll := Option.some kelly.evPctBankroll }
        else
          { pModel := Option.some pModel
            pMarket := Option.some pMarket
            edge := Option.some edge
            priceShortened := priceShortened
            hasLayValue := hasLayValue
            placeLay := true
            reasons := reasons ++
              (if kelly.belowMinStake then ["Stake below minimum"] else []) ++
              ["PLACE LAY"]
            kelly := Option.some kelly
            ev := Option.some kelly.ev
            evPctBankroll := Option.some kelly.evPctBankroll }

/-- Every branch of `evaluateRunner` either returns a decision with
`placeLay = false` and all sizing fields absent, or carries both filter flags
set to `true`. -/
theorem evaluateRunner_branches (pow : ℚ → ℚ → ℚ) (input : LayDecisionInput) :
    ((evaluateRunner pow input).placeLay = false ∧
      (evaluateRunner pow input).kelly = Option.none ∧
      (evaluateRunner pow input).ev = Option.none ∧
      (evaluateRunner pow input).evPctBankroll = Option.none) ∨
    ((evaluateRunner pow input).priceShortened = true ∧
      (evaluateRunner pow input).hasLayValue = true) := by
  cases hco : input.currentOdds with
  | none =>
    left
    simp [evaluateRunner, hco, nullDecision]
  | some o =>
    by_cases ho1 : o ≤ 1
    · left
      simp [evaluateRunner, hco, ho1, nullDecision]
    · simp only [evaluateRunner, hco, if_neg ho1]
      split
      · left
        exact ⟨rfl, rfl, rfl, rfl⟩
      · rename_i hflag
        have hand := Bool.and_eq_true_iff.mp (Bool.of_not_eq_false hflag)
        split
        · right
          exact ⟨hand.1, hand.2⟩
        · right
          exact ⟨hand.1, hand.2⟩

/-- Claim C7: whenever the decision returned by `evaluateRunner` reports
`priceShortened = false` or `hasLayValue = false`, it also reports
`placeLay = false` and its sizing fields `kelly`, `ev` and `evPctBankroll`
are absent (`none`), not zero. -/
theorem evaluateRunner_no_bet_null (pow : ℚ → ℚ → ℚ) (input : LayDecisionInput)
    (h : (evaluateRunner pow input).priceShortened = false ∨
      (evaluateRunner pow input).hasLayValue = false) :
    (evaluateRunner pow input).placeLay = false ∧
    (evaluateRunner pow input).kelly = Option.none ∧
    (evaluateRunner pow input).ev = Option.none ∧
    (evaluateRunner pow input).evPctBankroll = Option.none := by
  rcases evaluateRunner_branches pow input with ⟨hl, hk, he, hp⟩ | ⟨h1, h2⟩
  · exact ⟨hl, hk, he, hp⟩
  · rcases h with h | h
    · rw [h1] at h
      exact absurd h (by simp)
    · rw [h2] at h
      exact absurd h (by simp)

/-- An input with no current execution price. -/
def noOddsInput : LayDecisionInput :=
  { eventId := "evt", runnerName := "Lucky", initialOdds := Option.none
    currentOdds := Option.none, averageOdds := Option.none, bankroll := 1000
    commission := 1/20, kellyMultiplier := 1, maxLiabilityPct := 100
    minStake := 2, modelParams := { alpha := 1, beta := 1 } }

/-- Witness for C7 on a missing-odds input. -/
theorem evaluateRunner_no_bet_null_witness :
    (evaluateRunner (fun x _ => x) noOddsInput).placeLay = false ∧
    (evaluateRunner (fun x _ => x) noOddsInput).kelly = Option.none ∧
    (evaluateRunner (fun x _ => x) noOddsInput).ev = Option.none ∧
    (evaluateRunner (fun x _ => x) noOddsInput).evPctBankroll = Option.none :=
  evaluateRunner_no_bet_null (fun x _ => x) noOddsInput (Or.inl rfl)

/-- Claim C10: a current execution price that is missing, or less than or
equal to one, sends `evaluateRunner` straight to the terminal all-null
decision with the single reason string used for missing odds. -/
theorem evaluateRunner_degenerate_odds (pow : ℚ → ℚ → ℚ) (input : LayDecisionInput)
    (h : input.currentOdds = Option.none ∨
      ∃ o, input.currentOdds = Option.some o ∧ o ≤ 1) :
    evaluateRunner pow input = nullDecision ["No current odds available"] := by
  rcases h with h | ⟨o, ho, hle⟩
  · simp [evaluateRunner, h]
  · simp [evaluateRunner, ho, if_pos hle]

/-- An input whose current execution price is the degenerate value 1. -/
def degenerateOddsInput : LayDecisionInput :=
  { eventId := "evt", runnerName := "Lucky", initialOdds := Option.some 3
    currentOdds := Option.some 1, averageOdds := Option.some 3, bankroll := 1000
    commission := 1/20, kellyMultiplier := 1, maxLiabilityPct := 100
    minStake := 2, modelParams := { alpha := 1, beta := 1 } }

/-- Witness for C10 at current odds exactly 1. -/
theorem evaluateRunner_degenerate_odds_witness :
    evaluateRunner (fun x _ => x) degenerateOddsInput =
      nullDecision ["No current odds available"] :=
  evaluateRunner_degenerate_odds (fun x _ => x) degenerateOddsInput
    (Or.inr ⟨1, rfl, by norm_num⟩)

/-- Witness for C9 at the spec regression input. -/
theorem kellyLay_ev_roundtrip_witness :
    |((1 - kellyExampleParams.pWin) *
        profitIfLose (kellyLay kellyExampleParams).layStake kellyExampleParams.commission
      - kellyExampleParams.pWin * (kellyLay kellyExampleParams).liability)
      - (kellyLay kellyExampleParams).ev| ≤ 1/100 :=
  kellyLay_ev_roundtrip kellyExampleParams (by norm_num [kellyExampleParams])
    (by norm_num [kellyExampleParams]) (by norm_num [kellyExampleParams])
    (by norm_num [kellyExampleParams])
    (by norm_num [kellyFullFraction, returnPerLiability, oddsMinusOne, kellyExampleParams])

-- ============================================================
-- Anchor resolver: snapshot opening-flag marking
-- (src/app/api/snapshot/route.ts and its batch rewrite in unnamed part_002)
-- ============================================================

/-- One `OddsSnapshot` row as submitted to `POST /api/snapshot`, restricted to
the fields the marking logic reads (`src/lib/types.ts`). -/
structure SnapshotRow where
  event_id : String
  runner_name : String
  back_price : ℚ
  is_opening : Bool
  deriving DecidableEq, Repr

/-- The `event_id::runner_name` deduplication key built by both route
versions. -/
def snapKey (s : SnapshotRow) : String × String := (s.event_id, s.runner_name)

/-- Marking logic of the per-snapshot route (`src/app/api/snapshot/route.ts`
lines 39-55): each snapshot is flagged opening when no opening row exists in
the store — the in-flight batch is never consulted, so duplicates in one batch
are all flagged.  The store's openings are modelled as the key list
`existing`. -/
def markSnapshotsEach (existing : List (String × String)) (snaps : List SnapshotRow) :
    List SnapshotRow :=
  snaps.map fun s => { s with is_opening := decide (snapKey s ∉ existing) }

/-- Marking logic of the batch route (unnamed part_002 lines 88-102):
`alreadyHasOpening = existingOpenings.has(key) || openingsMarkedThisBatch.has(key)`;
the snapshot is flagged `is_opening = !alreadyHasOpening`, and exactly when it
is flagged its key is added to `openingsMarkedThisBatch` — rendered here as the
two branches of the membership test, with the marked-this-batch set threaded as
the list `marked`. -/
def markSnapshotsBatch (existing : List (String × String)) :
    List (String × String) → List SnapshotRow → List SnapshotRow
  | _, [] => []
  | marked, s :: rest =>
    if snapKey s ∈ existing ∨ snapKey s ∈ marked then
      { s with is_opening := false } :: markSnapshotsBatch existing marked rest
    else
      { s with is_opening := true } ::
        markSnapshotsBatch existing (snapKey s :: marked) rest

/-- The batch route starts with an empty marked-this-batch set. -/
def markSnapshots (existing : List (String × String)) (snaps : List SnapshotRow) :
    List SnapshotRow :=
  markSnapshotsBatch existing [] snaps

/-- How many rows for key `k` in a marked batch carry the opening flag. -/
def openingCount (snaps : List SnapshotRow) (k : String × String) : ℕ :=
  snaps.countP fun s => decide (snapKey s = k) && s.is_opening

/-- Unfolding `openingCount` over a cons cell. -/
theorem openingCount_cons (s : SnapshotRow) (l : List SnapshotRow) (k : String × String) :
    openingCount (s :: l) k =
      openingCount l k + if snapKey s = k ∧ s.is_opening = true then 1 else 0 := by
  rw [openingCount, openingCount, List.countP_cons]
  congr 1
  by_cases h1 : snapKey s = k <;> by_cases h2 : s.is_opening = true <;>
    simp [h1, h2]

/-- The batch resolver flags at most one opening per key, and none at all for
keys that already have a persisted opening. -/
theorem markSnapshotsBatch_count_le (existing : List (String × String))
    (snaps : List SnapshotRow) :
    ∀ (marked : List (String × String)) (k : String × String),
      openingCount (markSnapshotsBatch existing marked snaps) k ≤
        if k ∈ existing ∨ k ∈ marked then 0 else 1 := by
  induction snaps with
  | nil =>
    intro marked k
    simp only [markSnapshotsBatch, openingCount, List.countP_nil]
    split <;> norm_num
  | cons s rest ih =>
    intro marked k
    rw [markSnapshotsBatch]
    by_cases hA : snapKey s ∈ existing ∨ snapKey s ∈ marked
    · rw [if_pos hA, openingCount_cons]
      have hhead : ¬(snapKey ({ s with is_opening := false } : SnapshotRow) = k ∧
          ({ s with is_opening := false } : SnapshotRow).is_opening = true) := by
        rintro ⟨-, h⟩
        exact Bool.false_ne_true h
      rw [if_neg hhead]
      have := ih marked k
      omega
    · rw [if_neg hA, openingCount_cons]
      have htail := ih (snapKey s :: marked) k
      by_cases hk : snapKey s = k
      · have hhead : snapKey ({ s with is_opening := true } : SnapshotRow) = k ∧
            ({ s with is_opening := true } : SnapshotRow).is_opening = true := ⟨hk, rfl⟩
        rw [if_pos hhead]
        have hmem : k ∈ existing ∨ k ∈ snapKey s :: marked :=
          Or.inr (List.mem_cons.mpr (Or.inl hk.symm))
        rw [if_pos hmem] at htail
        have hgoal : ¬(k ∈ existing ∨ k ∈ marked) := by
          rw [← hk]
          exact hA
        rw [if_neg hgoal]
        omega
      · have hhead : ¬(snapKey ({ s with is_opening := true } : SnapshotRow) = k ∧
            ({ s with is_opening := true } : SnapshotRow).is_opening = true) := by
          rintro ⟨h, -⟩
          exact hk h
        rw [if_neg hhead]
        have hcond : (k ∈ existing ∨ k ∈ snapKey s :: marked) ↔
            (k ∈ existing ∨ k ∈ marked) := by
          rw [List.mem_cons]
          constructor
          · rintro (h | h | h)
            · exact Or.inl h
            · exact absurd h.symm hk
            · exact Or.inr h
          · rintro (h | h)
            · exact Or.inl h
            · exact Or.inr (Or.inr h)
        rw [if_congr hcond rfl rfl] at htail
        omega

/-- Two same-runner observations arriving in one batch (one per bookmaker, as
the dashboard submits them). -/
def demoSnapA : SnapshotRow :=
  { event_id := "race1", runner_name := "Lucky", back_price := 5, is_opening := false }

/-- Second bookmaker's price for the same runner in the same batch. -/
def demoSnapB : SnapshotRow :=
  { event_id := "race1", runner_name := "Lucky", back_price := 11/2, is_opening := false }

/-- Claim C4: the batch resolver (part_002) satisfies the at-most-once anchor
invariant — for every store state and batch, at most one row per
(race, runner) key is flagged opening, and none when the store already holds
an opening for that key (which also settles replay of a later batch).  The
per-snapshot route version (`src/app/api/snapshot/route.ts`) violates it: on a
two-observation batch for one runner with an empty store it flags both rows
opening, where the batch resolver flags only the first. -/
theorem anchor_at_most_once :
    (∀ (existing : List (String × String)) (snaps : List SnapshotRow) (k : String × String),
      openingCount (markSnapshots existing snaps) k ≤ if k ∈ existing then 0 else 1) ∧
    (markSnapshots [] [demoSnapA, demoSnapB]).map SnapshotRow.is_opening = [true, false] ∧
    (markSnapshotsEach [] [demoSnapA, demoSnapB]).map SnapshotRow.is_opening = [true, true] ∧
    openingCount (markSnapshotsEach [] [demoSnapA, demoSnapB]) ("race1", "Lucky") = 2 := by
  refine ⟨?_, ?_, ?_, ?_⟩
  · intro existing snaps k
    have h := markSnapshotsBatch_count_le existing snaps [] k
    simpa [markSnapshots] using h
  · simp [markSnapshots, markSnapshotsBatch, demoSnapA, demoSnapB, snapKey]
  · simp [markSnapshotsEach, demoSnapA, demoSnapB, snapKey]
  · simp [markSnapshotsEach, openingCount, demoSnapA, demoSnapB, snapKey, List.countP_cons]

-- ============================================================
-- Opening (anchor) price lookup (src/hooks/useOdds.ts, fetchOpeningOdds)
-- ============================================================

/-- One map-update step of the earlier `fetchOpeningOdds`
(`src/hooks/useOdds.ts` lines 145-169): for each opening row with a truthy
price, keep the lowest opening price across bookmakers. -/
def openingOddsUpdateV1 (m : String × String → Option ℚ) (row : SnapshotRow) :
    String × String → Option ℚ :=
  if row.is_opening = true ∧ row.back_price ≠ 0 then
    fun k =>
      if k = snapKey row then
        match m (snapKey row) with
        | Option.none => Option.some row.back_price
        | Option.some e =>
          if row.back_price < e then Option.some row.back_price else Option.some e
      else m k
  else m

/-- The earlier `fetchOpeningOdds`: fold the lowest-price update over the
fetched opening rows, starting from an empty map. -/
def fetchOpeningOddsV1 (rows : List SnapshotRow) : String × String → Option ℚ :=
  rows.foldl openingOddsUpdateV1 fun _ => Option.none

/-- One accumulation step of the current `fetchOpeningOdds`
(`src/hooks/useOdds.ts` lines 466-501): opening rows with a truthy price are
kept unless the parsed price is `<= 0`, and are appended to the per-key price
list. -/
def openingOddsAccumV2 (m : String × String → List ℚ) (row : SnapshotRow) :
    String × String → List ℚ :=
  if row.is_opening = true ∧ row.back_price ≠ 0 ∧ ¬row.back_price ≤ 0 then
    fun k => if k = snapKey row then m (snapKey row) ++ [row.back_price] else m k
  else m

/-- The per-key price lists accumulated by the current `fetchOpeningOdds`. -/
def openingPricesV2 (rows : List SnapshotRow) : String × String → List ℚ :=
  rows.foldl openingOddsAccumV2 fun _ => []

/-- The current `fetchOpeningOdds`: the average of the accumulated opening
prices per key (`avg = prices.reduce(sum) / prices.length`); keys with no
qualifying row are absent from the map. -/
def fetchOpeningOddsV2 (rows : List SnapshotRow) (k : String × String) : Option ℚ :=
  if openingPricesV2 rows k = [] then Option.none
  else Option.some ((openingPricesV2 rows k).sum / (openingPricesV2 rows k).length)

/-- A row contributes to key `k` exactly when it is flagged opening, carries
key `k`, and has a positive price. -/
def openingRowQualifies (k : String × String) (r : SnapshotRow) : Bool :=
  r.is_opening && decide (snapKey r = k) && decide (0 < r.back_price)

/-- All source prices captured for key `k` at anchor time, in arrival order. -/
def openingPriceList (rows : List SnapshotRow) (k : String × String) : List ℚ :=
  (rows.filter (openingRowQualifies k)).map SnapshotRow.back_price

/-- Unfolding `openingPriceList` over a cons cell. -/
theorem openingPriceList_cons (r : SnapshotRow) (rest : List SnapshotRow)
    (k : String × String) :
    openingPriceList (r :: rest) k =
      (if openingRowQualifies k r = true then [r.back_price] else []) ++
        openingPriceList rest k := by
  rw [openingPriceList, openingPriceList, List.filter_cons]
  split
  · rw [List.map_cons]
    rfl
  · rfl

/-- The fold of the current `fetchOpeningOdds` accumulates, per key, exactly
the qualifying source prices in order. -/
theorem openingPricesV2_foldl (rows : List SnapshotRow) :
    ∀ (m : String × String → List ℚ) (k : String × String),
      rows.foldl openingOddsAccumV2 m k = m k ++ openingPriceList rows k := by
  induction rows with
  | nil =>
    intro m k
    simp [openingPriceList]
  | cons r rest ih =>
    intro m k
    rw [List.foldl_cons, ih, openingPriceList_cons]
    by_cases hc : r.is_opening = true ∧ r.back_price ≠ 0 ∧ ¬r.back_price ≤ 0
    · have hpos : 0 < r.back_price := lt_of_not_le hc.2.2
      by_cases hk : k = snapKey r
      · have hq : openingRowQualifies k r = true := by
          rw [openingRowQualifies]
          simp [hc.1, hk.symm, hpos]
        rw [hq, if_pos rfl]
        rw [openingOddsAccumV2, if_pos hc]
        simp only [if_pos hk]
        rw [← hk, List.append_assoc]
      · have hq : openingRowQualifies k r = false := by
          rw [openingRowQualifies]
          have hne : ¬snapKey r = k := fun h => hk h.symm
          simp [hne]
        rw [hq]
        rw [openingOddsAccumV2, if_pos hc]
        simp only [if_neg hk]
        rfl
    · have hq : openingRowQualifies k r = false := by
        rw [openingRowQualifies]
        by_cases ho : r.is_opening = true
        · have hle : r.back_price ≤ 0 := by
            have hno : ¬(r.back_price ≠ 0 ∧ ¬r.back_price ≤ 0) := fun h => hc ⟨ho, h⟩
            push_neg at hno
            by_cases h0 : r.back_price = 0
            · exact le_of_eq h0
            · exact hno h0
          simp [decide_eq_false (not_lt.mpr hle)]
        · have ho2 : r.is_opening = false := Bool.not_eq_true _ |>.mp ho
          simp [ho2]
      rw [hq]
      rw [openingOddsAccumV2, if_neg hc]
      rfl

/-- Claim C5 (amended): the current `fetchOpeningOdds` returns, for each
(race, runner) key with at least one qualifying opening row, the arithmetic
mean of all opening-flagged positive source prices for that key — not a
single source's price.  (The earlier version in the same hook file instead
kept the lowest opening price; see the counterexample.) -/
theorem fetchOpeningOddsV2_mean (rows : List SnapshotRow) (k : String × String) :
    fetchOpeningOddsV2 rows k =
      if openingPriceList rows k = [] then Option.none
      else
        Option.some ((openingPriceList rows k).sum / (openingPriceList rows k).length) := by
  have h : openingPricesV2 rows k = openingPriceList rows k := by
    rw [openingPricesV2, openingPricesV2_foldl rows _ k]
    rfl
  rw [fetchOpeningOddsV2, h]

/-- An opening row at price 2 for the counterexample batch. -/
def openRowA : SnapshotRow :=
  { event_id := "race1", runner_name := "Lucky", back_price := 2, is_opening := true }

/-- An opening row at price 4 for the counterexample batch. -/
def openRowB : SnapshotRow :=
  { event_id := "race1", runner_name := "Lucky", back_price := 4, is_opening := true }

/-- Counterexample to C5 as stated: on opening prices 2 and 4 for the same
runner, the earlier `fetchOpeningOdds` anchors at the lowest source price 2,
not at the arithmetic mean 3 computed by the current version. -/
theorem fetchOpeningOdds_lowest_counterexample :
    fetchOpeningOddsV1 [openRowA, openRowB] ("race1", "Lucky") = Option.some 2 ∧
    openingPriceList [openRowA, openRowB] ("race1", "Lucky") = [2, 4] ∧
    fetchOpeningOddsV2 [openRowA, openRowB] ("race1", "Lucky") = Option.some 3 ∧
    Option.some (2 : ℚ) ≠ Option.some (3 : ℚ) := by
  refine ⟨?_, ?_, ?_, by norm_num⟩
  · norm_num [fetchOpeningOddsV1, openingOddsUpdateV1, openRowA, openRowB, snapKey]
  · norm_num [openingPriceList, openingRowQualifies, openRowA, openRowB, snapKey]
  · have h2 : openingPricesV2 [openRowA, openRowB] ("race1", "Lucky") = [2, 4] := by
      norm_num [openingPricesV2, openingOddsAccumV2, openRowA, openRowB, snapKey]
    rw [fetchOpeningOddsV2, h2]
    norm_num
    exact fun h => absurd h (List.cons_ne_nil _ _)

end BettingResearch
